import Mathlib

/-!
Verification of the retrieval core of an itinerary-generation application:
text chunking, vector-store indexing and search, retrieval orchestration,
and web-corpus gathering.

Modelling conventions:
* Python `str` values holding page text are modelled as `List Char`;
  URLs, queries and stored chunk texts (never split) stay `String`.
* Python `str.split()` and `" ".join` are modelled by `pySplit` / `joinSpace`.
* Similarity scores (Python floats) are modelled as exact rationals `ℚ`.
* External libraries (the Annoy ANN index, the embedding model, HTTP and
  DDG search) are modelled by their documented interfaces: the ANN reply
  of `get_nns_by_vector` is a pair of equal-length index/distance lists,
  quantified over in the theorems; `add_item` on a built index raises.
-/

/-- Model of Python `str.split()` (no arguments): split on runs of
whitespace, discarding empty pieces.  The accumulator holds the current
word, reversed. -/
def wordsAux : List Char → List Char → List (List Char)
  | [], acc => if acc = [] then [] else [acc.reverse]
  | c :: cs, acc =>
    if c.isWhitespace then
      if acc = [] then wordsAux cs [] else acc.reverse :: wordsAux cs []
    else wordsAux cs (c :: acc)

/-- `pySplit text` models Python `text.split()`. -/
def pySplit (text : List Char) : List (List Char) := wordsAux text []

/-- Model of Python `" ".join(ws)`. -/
def joinSpace : List (List Char) → List Char
  | [] => []
  | [w] => w
  | w :: ws => w ++ ' ' :: joinSpace ws

/-- Fuel-driven worker for `rangeStep`; `stop - cur` iterations always
suffice because the cursor advances by a positive step. -/
def rangeStepGo (stop step : Nat) : Nat → Nat → List Nat
  | 0, _ => []
  | fuel + 1, cur =>
    if cur < stop then cur :: rangeStepGo stop step fuel (cur + step) else []

/-- Model of Python `range(start, stop, step)` for a positive `step`
(the zero/negative cases are handled at each call site). -/
def rangeStep (start stop step : Nat) : List Nat :=
  if 0 < step then rangeStepGo stop step (stop - start) start else []

theorem rangeStepGo_fuel (stop step : Nat) (hstep : 0 < step) :
    ∀ (f1 f2 cur : Nat), stop - cur ≤ f1 → stop - cur ≤ f2 →
    rangeStepGo stop step f1 cur = rangeStepGo stop step f2 cur := by
  intro f1
  induction f1 with
  | zero =>
    intro f2 cur h1 _
    cases f2 with
    | zero => rfl
    | succ g =>
      show rangeStepGo stop step 0 cur = if cur < stop then _ else []
      rw [if_neg (by omega)]
      rfl
  | succ f ih =>
    intro f2 cur h1 h2
    cases f2 with
    | zero =>
      show (if cur < stop then _ else []) = rangeStepGo stop step 0 cur
      rw [if_neg (by omega)]
      rfl
    | succ g =>
      show (if cur < stop then cur :: rangeStepGo stop step f (cur + step) else [])
        = (if cur < stop then cur :: rangeStepGo stop step g (cur + step) else [])
      by_cases hc : cur < stop
      · rw [if_pos hc, if_pos hc, ih g (cur + step) (by omega) (by omega)]
      · rw [if_neg hc, if_neg hc]

/-- `chunk_text` from `src/rag.py`: word-window chunker with the stride
clamped to at least 1 (`step = max(1, chunk_words - overlap_words)`); a
chunk that joins to the empty string is dropped (`if chunk:`). -/
def rag_chunk_text (text : List Char) (chunk_words overlap_words : Nat) : List (List Char) :=
  let words := pySplit text
  let step := max 1 (chunk_words - overlap_words)
  ((rangeStep 0 words.length step).map
    (fun i => joinSpace ((words.drop i).take chunk_words))).filter
      (fun c => decide (c ≠ []))

/-- `VectorStore.chunk_text` from `src/vector_store.py`: unclamped Python
stride `chunk_size - overlap`; `range` raises `ValueError` on a zero step
and yields nothing on a negative step; chunks are appended
unconditionally. -/
def vs_chunk_text (text : List Char) (chunk_size overlap : Nat) : Except String (List (List Char)) :=
  let words := pySplit text
  let step : Int := (chunk_size : Int) - (overlap : Int)
  if step = 0 then Except.error "ValueError: range() arg 3 must not be zero"
  else if step < 0 then Except.ok []
  else Except.ok ((rangeStep 0 words.length step.toNat).map
    (fun i => joinSpace ((words.drop i).take chunk_size)))

/-- De-overlapping: drop each chunk's first `ov` words, except for the
first chunk. -/
def deOverlap {α : Type} (ov : Nat) : List (List α) → List (List α)
  | [] => []
  | c :: cs => c :: cs.map (fun w => w.drop ov)

theorem rangeStep_eq_cons {start stop step : Nat} (h1 : start < stop) (h2 : 0 < step) :
    rangeStep start stop step = start :: rangeStep (start + step) stop step := by
  show (if 0 < step then rangeStepGo stop step (stop - start) start else [])
    = start :: (if 0 < step then rangeStepGo stop step (stop - (start + step)) (start + step) else [])
  rw [if_pos h2, if_pos h2]
  have hf : stop - start = (stop - start - 1) + 1 := by omega
  rw [hf]
  show (if start < stop then start :: rangeStepGo stop step (stop - start - 1) (start + step) else [])
    = _
  rw [if_pos h1,
    rangeStepGo_fuel stop step h2 (stop - start - 1) (stop - (start + step)) (start + step)
      (by omega) (by omega)]

theorem rangeStep_eq_nil {start stop step : Nat} (h : stop ≤ start ∨ step = 0) :
    rangeStep start stop step = [] := by
  rcases h with h | h
  · show (if 0 < step then rangeStepGo stop step (stop - start) start else []) = []
    by_cases h2 : 0 < step
    · rw [if_pos h2]
      have hf : stop - start = 0 := by omega
      rw [hf]
      rfl
    · rw [if_neg h2]
  · show (if 0 < step then _ else []) = []
    rw [if_neg (by omega)]

theorem rangeStep_mem {start stop step : Nat} :
    ∀ j ∈ rangeStep start stop step, start ≤ j ∧ j < stop := by
  intro j hj
  by_cases h : start < stop ∧ 0 < step
  · rw [rangeStep_eq_cons h.1 h.2, List.mem_cons] at hj
    rcases hj with hj | hj
    · omega
    · have := rangeStep_mem j hj
      omega
  · rw [rangeStep_eq_nil (by omega)] at hj
    exact absurd hj (List.not_mem_nil j)
termination_by stop - start
decreasing_by omega

theorem rangeStep_length {start stop step : Nat} (h2 : 0 < step) :
    (rangeStep start stop step).length ≤ stop - start := by
  by_cases h : start < stop
  · rw [rangeStep_eq_cons h h2]
    have := @rangeStep_length (start + step) stop step h2
    simp only [List.length_cons]
    omega
  · rw [rangeStep_eq_nil (Or.inl (by omega))]
    simp
termination_by stop - start
decreasing_by omega

/-- Properties of the words produced by `pySplit`: every word is nonempty
and contains no whitespace character. -/
theorem wordsAux_ok : ∀ (cs acc : List Char), (∀ c ∈ acc, c.isWhitespace = false) →
    ∀ w ∈ wordsAux cs acc, w ≠ [] ∧ ∀ c ∈ w, c.isWhitespace = false := by
  intro cs
  induction cs with
  | nil =>
    intro acc hacc w hw
    simp only [wordsAux] at hw
    by_cases h : acc = []
    · simp [h] at hw
    · rw [if_neg h, List.mem_singleton] at hw
      subst hw
      refine ⟨by simpa using h, ?_⟩
      intro c hc
      exact hacc c (List.mem_reverse.mp hc)
  | cons c cs ih =>
    intro acc hacc w hw
    simp only [wordsAux] at hw
    by_cases hws : c.isWhitespace
    · rw [if_pos hws] at hw
      by_cases h : acc = []
      · rw [if_pos h] at hw
        exact ih [] (by simp) w hw
      · rw [if_neg h, List.mem_cons] at hw
        rcases hw with hw | hw
        · subst hw
          refine ⟨by simpa using h, ?_⟩
          intro d hd
          exact hacc d (List.mem_reverse.mp hd)
        · exact ih [] (by simp) w hw
    · rw [if_neg hws] at hw
      refine ih (c :: acc) ?_ w hw
      intro d hd
      rw [List.mem_cons] at hd
      rcases hd with hd | hd
      · subst hd
        simpa using hws
      · exact hacc d hd

theorem pySplit_ok (text : List Char) :
    ∀ w ∈ pySplit text, w ≠ [] ∧ ∀ c ∈ w, c.isWhitespace = false :=
  wordsAux_ok text [] (by simp)

theorem wordsAux_append_word (w : List Char) (hw : ∀ c ∈ w, c.isWhitespace = false) :
    ∀ (cs acc : List Char), wordsAux (w ++ cs) acc = wordsAux cs (w.reverse ++ acc) := by
  induction w with
  | nil => intro cs acc; simp
  | cons c w ih =>
    intro cs acc
    have hc : c.isWhitespace = false := hw c (by simp)
    have hw' : ∀ d ∈ w, d.isWhitespace = false := fun d hd => hw d (List.mem_cons_of_mem c hd)
    simp only [List.cons_append, wordsAux, hc]
    rw [if_neg (by simp [hc])]
    rw [show w.append cs = w ++ cs from rfl, ih hw' cs (c :: acc)]
    simp

theorem joinSpace_cons_cons (w x : List Char) (ws : List (List Char)) :
    joinSpace (w :: x :: ws) = w ++ ' ' :: joinSpace (x :: ws) := rfl

theorem joinSpace_ne_nil (w : List Char) (hw : w ≠ []) (ws : List (List Char)) :
    joinSpace (w :: ws) ≠ [] := by
  cases ws with
  | nil => simpa [joinSpace] using hw
  | cons x xs =>
    rw [joinSpace_cons_cons]
    simp

/-- Splitting a space-joined list of nonempty, whitespace-free words
recovers the word list: `" ".join(ws).split() == ws`. -/
theorem pySplit_joinSpace : ∀ ws : List (List Char),
    (∀ w ∈ ws, w ≠ [] ∧ ∀ c ∈ w, c.isWhitespace = false) →
    pySplit (joinSpace ws) = ws := by
  intro ws
  induction ws with
  | nil => intro _; rfl
  | cons w ws ih =>
    intro h
    have hw := h w (by simp)
    cases ws with
    | nil =>
      show wordsAux (joinSpace [w]) [] = [w]
      have : joinSpace [w] = w ++ [] := by simp [joinSpace]
      rw [this, wordsAux_append_word w hw.2]
      simp only [wordsAux]
      rw [if_neg (by simp [hw.1])]
      simp
    | cons x xs =>
      show wordsAux (joinSpace (w :: x :: xs)) [] = w :: x :: xs
      rw [joinSpace_cons_cons, wordsAux_append_word w hw.2]
      simp only [wordsAux]
      rw [if_pos (by decide)]
      rw [if_neg (by simp [hw.1])]
      rw [List.append_nil, List.reverse_reverse]
      have := ih (fun y hy => h y (List.mem_cons_of_mem w hy))
      exact congrArg (w :: ·) this

/-- De-overlapped tail coverage: starting from any offset `i`, the
windows at offsets `i, i+step, ...` with their first `ov` words dropped
concatenate to `ws.drop (i + ov)` (where `step = cw - ov > 0`). -/
theorem coverAux {α : Type} (ws : List α) (cw ov : Nat) (hov : ov < cw) (i : Nat) :
    ((rangeStep i ws.length (cw - ov)).map
      (fun j => ((ws.drop j).take cw).drop ov)).flatten = ws.drop (i + ov) := by
  by_cases h : i < ws.length
  · rw [rangeStep_eq_cons h (by omega), List.map_cons, List.flatten_cons,
      coverAux ws cw ov hov (i + (cw - ov))]
    rw [List.drop_take]
    have hd : List.drop ov (List.drop i ws) = ws.drop (i + ov) := List.drop_drop ov i ws
    have hd2 : List.drop (i + (cw - ov) + ov) ws = List.drop (cw - ov) (ws.drop (i + ov)) := by
      rw [List.drop_drop]; congr 1; omega
    rw [hd, hd2]
    exact List.take_append_drop (cw - ov) (ws.drop (i + ov))
  · rw [rangeStep_eq_nil (Or.inl (by omega))]
    simp only [List.map_nil, List.flatten_nil]
    exact (List.drop_eq_nil_of_le (by omega)).symm
termination_by ws.length - i
decreasing_by omega

/-- Word-level chunk coverage: the window slices at offsets
`0, step, 2*step, ...`, de-overlapped, concatenate back to the full word
list. -/
theorem chunkSlices_cover {α : Type} (ws : List α) (cw ov : Nat) (hov : ov < cw) :
    (deOverlap ov ((rangeStep 0 ws.length (cw - ov)).map
      (fun i => (ws.drop i).take cw))).flatten = ws := by
  by_cases h : 0 < ws.length
  · rw [rangeStep_eq_cons h (by omega), List.map_cons]
    simp only [deOverlap, List.map_map, List.flatten_cons, List.drop_zero, Nat.zero_add]
    have heq : ((rangeStep (cw - ov) ws.length (cw - ov)).map
        ((fun w => List.drop ov w) ∘ fun i => (ws.drop i).take cw)).flatten
        = ws.drop ((cw - ov) + ov) := by
      simpa [Function.comp] using coverAux ws cw ov hov (cw - ov)
    rw [heq]
    have h2 : (cw - ov) + ov = cw := by omega
    rw [h2]
    exact List.take_append_drop cw ws
  · have hnil : ws = [] := List.length_eq_zero.mp (by omega)
    subst hnil
    simp [rangeStep_eq_nil, deOverlap]

theorem slice_ne_nil {α : Type} (ws : List α) (cw i : Nat) (hcw : 0 < cw)
    (hi : i < ws.length) : (ws.drop i).take cw ≠ [] := by
  intro hnil
  have := congrArg List.length hnil
  simp only [List.length_take, List.length_drop, List.length_nil] at this
  omega

theorem slice_words_ok (text : List Char) (cw i : Nat) :
    ∀ w ∈ ((pySplit text).drop i).take cw, w ≠ [] ∧ ∀ c ∈ w, c.isWhitespace = false := by
  intro w hw
  exact pySplit_ok text w (List.mem_of_mem_drop (List.mem_of_mem_take hw))

theorem pySplit_join_slice (text : List Char) (cw i : Nat) :
    pySplit (joinSpace (((pySplit text).drop i).take cw)) = ((pySplit text).drop i).take cw :=
  pySplit_joinSpace _ (slice_words_ok text cw i)

/-- Under `ov < cw` the `rag.chunk_text` empty-chunk filter drops nothing,
and the stride clamp is inactive. -/
theorem rag_chunks_eq (text : List Char) (cw ov : Nat) (hov : ov < cw) :
    rag_chunk_text text cw ov
      = (rangeStep 0 (pySplit text).length (cw - ov)).map
          (fun i => joinSpace (((pySplit text).drop i).take cw)) := by
  have hstep : max 1 (cw - ov) = cw - ov := by omega
  show ((rangeStep 0 (pySplit text).length (max 1 (cw - ov))).map
    (fun i => joinSpace (((pySplit text).drop i).take cw))).filter
      (fun c => decide (c ≠ [])) = _
  rw [hstep]
  rw [List.filter_eq_self]
  intro c hc
  rw [List.mem_map] at hc
  obtain ⟨i, hi, rfl⟩ := hc
  have hi' := (rangeStep_mem i hi).2
  cases hsl : ((pySplit text).drop i).take cw with
  | nil => exact absurd hsl (slice_ne_nil _ cw i (by omega) hi')
  | cons w rest =>
    have hwmem : w ∈ ((pySplit text).drop i).take cw := by rw [hsl]; simp
    have hwok := slice_words_ok text cw i w hwmem
    simpa using joinSpace_ne_nil w hwok.1 rest

/-- Under `ov < cw`, `VectorStore.chunk_text` succeeds and produces the
same chunk list as `rag.chunk_text`. -/
theorem vs_chunks_eq (text : List Char) (cw ov : Nat) (hov : ov < cw) :
    vs_chunk_text text cw ov
      = Except.ok ((rangeStep 0 (pySplit text).length (cw - ov)).map
          (fun i => joinSpace (((pySplit text).drop i).take cw))) := by
  show (if ((cw : Int) - (ov : Int)) = 0 then _
    else if ((cw : Int) - (ov : Int)) < 0 then _ else _) = _
  rw [if_neg (by omega), if_neg (by omega)]
  have : ((cw : Int) - (ov : Int)).toNat = cw - ov := by omega
  rw [this]

theorem chunk_coverage_core (text : List Char) (cw ov : Nat) (hov : ov < cw) :
    (deOverlap ov (((rangeStep 0 (pySplit text).length (cw - ov)).map
      (fun i => joinSpace (((pySplit text).drop i).take cw))).map pySplit)).flatten
      = pySplit text := by
  rw [List.map_map]
  have hmap : (rangeStep 0 (pySplit text).length (cw - ov)).map
      (pySplit ∘ fun i => joinSpace (((pySplit text).drop i).take cw))
      = (rangeStep 0 (pySplit text).length (cw - ov)).map
          (fun i => ((pySplit text).drop i).take cw) := by
    apply List.map_congr_left
    intro i _
    exact pySplit_join_slice text cw i
  rw [hmap]
  exact chunkSlices_cover (pySplit text) cw ov hov

/-- C1: Chunk coverage.  For every input text and every window/overlap
pair with `overlap < window`, concatenating the (whitespace-split) words
of the chunks returned by `chunk_text` — dropping each chunk's first
`overlap` words after the first chunk — reproduces the text's word
sequence in order, with no word lost or reordered.  Holds for both
`rag.chunk_text` and `VectorStore.chunk_text` (which succeeds here). -/
theorem chunk_coverage (text : List Char) (cw ov : Nat) (hov : ov < cw) :
    (deOverlap ov ((rag_chunk_text text cw ov).map pySplit)).flatten = pySplit text ∧
    ∃ l, vs_chunk_text text cw ov = Except.ok l ∧
      (deOverlap ov (l.map pySplit)).flatten = pySplit text := by
  refine ⟨?_, ?_⟩
  · rw [rag_chunks_eq text cw ov hov]
    exact chunk_coverage_core text cw ov hov
  · refine ⟨_, vs_chunks_eq text cw ov hov, ?_⟩
    exact chunk_coverage_core text cw ov hov

/-- Witness for C1 at `text = "a b c"`, window 2, overlap 1. -/
theorem chunk_coverage_witness :
    (1 < 2 ∧
      (deOverlap 1 ((rag_chunk_text ['a', ' ', 'b', ' ', 'c'] 2 1).map pySplit)).flatten
        = pySplit ['a', ' ', 'b', ' ', 'c']) ∧
    ∃ l, vs_chunk_text ['a', ' ', 'b', ' ', 'c'] 2 1 = Except.ok l ∧
      (deOverlap 1 (l.map pySplit)).flatten = pySplit ['a', ' ', 'b', ' ', 'c'] := by
  have h := chunk_coverage ['a', ' ', 'b', ' ', 'c'] 2 1 (by decide)
  exact ⟨⟨by decide, h.1⟩, h.2⟩

/-- C2 counterexample: the text `"a b"` is non-empty with 2 words, the
window is 3 (so word count ≤ window) and the overlap is 2 (< window),
yet `rag.chunk_text` returns TWO chunks (`["a b", "b"]`), not exactly
one — the stride `max(1, 3-2) = 1` restarts a window at every word. -/
theorem chunker_one_chunk_counterexample :
    pySplit ['a', ' ', 'b'] ≠ [] ∧
    (pySplit ['a', ' ', 'b']).length ≤ 3 ∧
    rag_chunk_text ['a', ' ', 'b'] 3 2 = [['a', ' ', 'b'], ['b']] ∧
    (rag_chunk_text ['a', ' ', 'b'] 3 2).length ≠ 1 := by
  refine ⟨by decide, by decide, by decide, by decide⟩

/-- C2 (amended): `rag.chunk_text` clamps the stride to
`max 1 (window - overlap)`, so for every parameter pair (including
`overlap ≥ window`) it returns a finite list of at most one chunk per
word; a text with at least one word whose word count is at most the
*clamped stride* (not merely the window) yields exactly one chunk
containing all of the text's words.  `VectorStore.chunk_text` does not
clamp: `overlap = chunk_size` raises `ValueError` inside `range`, and
`overlap > chunk_size` yields no chunks at all. -/
theorem chunker_degenerate (text : List Char) (cw ov : Nat) :
    (rag_chunk_text text cw ov).length ≤ (pySplit text).length ∧
    (0 < cw → pySplit text ≠ [] → (pySplit text).length ≤ max 1 (cw - ov) →
      rag_chunk_text text cw ov = [joinSpace (pySplit text)]) ∧
    vs_chunk_text text cw cw = Except.error "ValueError: range() arg 3 must not be zero" ∧
    (cw < ov → vs_chunk_text text cw ov = Except.ok []) := by
  refine ⟨?_, ?_, ?_, ?_⟩
  · show (((rangeStep 0 (pySplit text).length (max 1 (cw - ov))).map
      (fun i => joinSpace (((pySplit text).drop i).take cw))).filter
        (fun c => decide (c ≠ []))).length ≤ (pySplit text).length
    calc (((rangeStep 0 (pySplit text).length (max 1 (cw - ov))).map
          (fun i => joinSpace (((pySplit text).drop i).take cw))).filter
            (fun c => decide (c ≠ []))).length
        ≤ ((rangeStep 0 (pySplit text).length (max 1 (cw - ov))).map
            (fun i => joinSpace (((pySplit text).drop i).take cw))).length :=
          List.length_filter_le _ _
      _ = (rangeStep 0 (pySplit text).length (max 1 (cw - ov))).length :=
          List.length_map _ _
      _ ≤ (pySplit text).length - 0 := rangeStep_length (by omega)
      _ ≤ (pySplit text).length := by omega
  · intro hcw hne hlen
    have hn : 0 < (pySplit text).length := List.length_pos.mpr hne
    show (((rangeStep 0 (pySplit text).length (max 1 (cw - ov))).map
      (fun i => joinSpace (((pySplit text).drop i).take cw))).filter
        (fun c => decide (c ≠ []))) = [joinSpace (pySplit text)]
    rw [rangeStep_eq_cons hn (by omega),
      rangeStep_eq_nil (Or.inl (by omega))]
    have htake : (pySplit text).take cw = pySplit text := by
      apply List.take_of_length_le
      have : max 1 (cw - ov) ≤ cw := by omega
      omega
    simp only [List.map_cons, List.map_nil, List.drop_zero, htake]
    rw [List.filter_cons_of_pos, List.filter_nil]
    cases hsp : pySplit text with
    | nil => exact absurd hsp hne
    | cons w rest =>
      have hwok := pySplit_ok text w (by rw [hsp]; simp)
      simpa using joinSpace_ne_nil w hwok.1 rest
  · show (if ((cw : Int) - (cw : Int)) = 0 then
        Except.error "ValueError: range() arg 3 must not be zero"
      else if ((cw : Int) - (cw : Int)) < 0 then _ else _) = _
    rw [if_pos (by omega)]
  · intro hlt
    show (if ((cw : Int) - (ov : Int)) = 0 then _
      else if ((cw : Int) - (ov : Int)) < 0 then Except.ok [] else _) = _
    rw [if_neg (by omega), if_pos (by omega)]

/-- Witness for C2 (amended) at `text = "a"`, window 2, overlap 5. -/
theorem chunker_degenerate_witness :
    (rag_chunk_text ['a'] 2 5).length ≤ (pySplit ['a']).length ∧
    (0 < 2 ∧ pySplit ['a'] ≠ [] ∧ (pySplit ['a']).length ≤ max 1 (2 - 5) ∧
      rag_chunk_text ['a'] 2 5 = [joinSpace (pySplit ['a'])]) ∧
    vs_chunk_text ['a'] 2 2 = Except.error "ValueError: range() arg 3 must not be zero" ∧
    (2 < 5 ∧ vs_chunk_text ['a'] 2 5 = Except.ok []) := by
  have h := chunker_degenerate ['a'] 2 5
  exact ⟨h.1, ⟨by decide, by decide, by decide,
    h.2.1 (by decide) (by decide) (by decide)⟩, h.2.2.1, by decide, h.2.2.2 (by decide)⟩

deriving instance DecidableEq for Except

/-- Python metadata dict, modelled as an association list. -/
abbrev Meta : Type := List (String × String)

/-- The empty Python dict `{}`. -/
def emptyMeta : Meta := []

/-- Model of the external Annoy index object: the ids added so far, in
order, and whether `build` has been called.  Per Annoy's documented
interface, `add_item` raises on a built index and `build` raises if
called twice. -/
structure AnnoyState where
  items : List Nat
  built : Bool
deriving Repr, DecidableEq

def AnnoyState.addItem (a : AnnoyState) (i : Nat) : Except String AnnoyState :=
  if a.built then Except.error "You can't add an item to a built index"
  else Except.ok { a with items := a.items ++ [i] }

def AnnoyState.buildTrees (a : AnnoyState) : Except String AnnoyState :=
  if a.built then Except.error "You can't build a built index"
  else Except.ok { a with built := true }

/-- State of `VectorStore` (src/vector_store.py `__init__`): `index` is
`None`, the document and metadata arrays are empty, `is_built` is
false. -/
structure VectorStoreState where
  index : Option AnnoyState
  documents : List String
  document_metadata : List Meta
  is_built : Bool
deriving Repr, DecidableEq

def initVectorStore : VectorStoreState :=
  { index := none, documents := [], document_metadata := [], is_built := false }

/-- Add `n` items with consecutive ids starting at `start`
(the `for i, embedding in enumerate(embeddings)` loop). -/
def addItems (a : AnnoyState) (start n : Nat) : Except String AnnoyState :=
  match n with
  | 0 => Except.ok a
  | m + 1 =>
    match a.addItem start with
    | Except.error e => Except.error e
    | Except.ok a' => addItems a' (start + 1) m

/-- What `create_embeddings` appends to `document_metadata`: the
supplied `metadata` if it is truthy (a non-empty list, regardless of its
length!), else `len(texts)` copies of `{}` — Python's
`if metadata: ... else ...`. -/
def mdExtension (texts : List String) (metadata : Option (List Meta)) : List Meta :=
  match metadata with
  | some m => if m = [] then List.replicate texts.length emptyMeta else m
  | none => List.replicate texts.length emptyMeta

/-- The Annoy index object `create_embeddings` works on: the existing one
or, when `index is None`, a fresh unbuilt one. -/
def idxOrNew (st : VectorStoreState) : AnnoyState :=
  match st.index with
  | none => { items := [], built := false }
  | some a => a

/-- `is_built` after `create_embeddings`: reset to `False` exactly when a
fresh index was created. -/
def isBuiltAfter (st : VectorStoreState) : Bool :=
  match st.index with
  | none => false
  | some _ => st.is_built

/-- `VectorStore.create_embeddings(texts, metadata=None)`: returns
unchanged on an empty `texts`; otherwise lazily creates the Annoy index
(resetting `is_built`), adds one vector per text at ids
`len(documents), ...`, extends `documents` by `texts`, and extends
`document_metadata` by `mdExtension texts metadata`.  An Annoy
`add_item` failure propagates as an exception. -/
def create_embeddings (st : VectorStoreState) (texts : List String)
    (metadata : Option (List Meta)) : Except String VectorStoreState :=
  if texts = [] then Except.ok st
  else
    match addItems (idxOrNew st) st.documents.length texts.length with
    | Except.error e => Except.error e
    | Except.ok idx1 =>
      Except.ok
        { index := some idx1
          documents := st.documents ++ texts
          document_metadata := st.document_metadata ++ mdExtension texts metadata
          is_built := isBuiltAfter st }

/-- `VectorStore.build_index()`: builds the Annoy forest and marks the
store built, but only when an index exists, the store is not already
built and at least one document is stored; otherwise a no-op. -/
def build_index (st : VectorStoreState) : Except String VectorStoreState :=
  match st.index with
  | none => Except.ok st
  | some a =>
    if st.is_built = false ∧ 0 < st.documents.length then
      match a.buildTrees with
      | Except.error e => Except.error e
      | Except.ok a' => Except.ok { st with index := some a', is_built := true }
    else Except.ok st

/-- The result-formatting loop of `VectorStore.search`: for each
`(idx, sim)` pair, append `(documents[idx], sim, metadata[idx])` when
`idx < len(documents)`; a metadata access out of range raises
(`IndexError`), which the surrounding `try/except` turns into `[]`. -/
def formatResults (docs : List String) (md : List Meta) :
    List (Nat × ℚ) → Except String (List (String × ℚ × Meta))
  | [] => Except.ok []
  | p :: rest =>
    if h : p.1 < docs.length then
      match md[p.1]? with
      | some m =>
        match formatResults docs md rest with
        | Except.error e => Except.error e
        | Except.ok r => Except.ok ((docs.get ⟨p.1, h⟩, p.2, m) :: r)
      | none => Except.error "IndexError: list index out of range"
    else formatResults docs md rest

/-- `VectorStore.search(query, k)`: returns `[]` when the index is
`None`, no documents are stored or the index is not built; otherwise
converts the Annoy reply's angular distances to similarities
`1 - d^2/2` and formats the results, with any internal exception caught
and turned into `[]`.  The index/distance lists `idxs`/`dists` stand for
the reply of `index.get_nns_by_vector(query_embedding, k)`. -/
def VectorStoreState.search (st : VectorStoreState) (idxs : List Nat)
    (dists : List ℚ) : List (String × ℚ × Meta) :=
  if st.index.isNone || st.documents.length == 0 || !st.is_built then []
  else
    let sims := dists.map (fun d => 1 - d ^ 2 / 2)
    match formatResults st.documents st.document_metadata (idxs.zip sims) with
    | Except.ok r => r
    | Except.error _ => []

/-- State of `InMemoryVectorStore` (src/rag.py). -/
structure InMemoryVectorStore where
  index : Option AnnoyState
  chunks : List String
  sources : List String
deriving Repr, DecidableEq

def initInMemoryStore : InMemoryVectorStore :=
  { index := none, chunks := [], sources := [] }

/-- `InMemoryVectorStore.build(corpus)`: a no-op on an empty corpus;
otherwise replaces chunks and sources with the corpus columns, adds one
vector per chunk at ids `0..n-1` and builds the Annoy forest. -/
def InMemoryVectorStore.build (st : InMemoryVectorStore)
    (corpus : List (String × String)) : InMemoryVectorStore :=
  if corpus = [] then st
  else
    { index := some { items := List.range corpus.length, built := true }
      chunks := corpus.map Prod.fst
      sources := corpus.map Prod.snd }

/-- The result loop of `InMemoryVectorStore.search`: keeps `(chunks[idx],
sources[idx], sim)` for `0 <= idx < len(chunks)`; a `sources` access out
of range would raise (`IndexError`) — this search has no `try/except`. -/
def ragFormat (chunks sources : List String) :
    List (Nat × ℚ) → Except String (List (String × String × ℚ))
  | [] => Except.ok []
  | p :: rest =>
    if h : p.1 < chunks.length then
      match sources[p.1]? with
      | some src =>
        match ragFormat chunks sources rest with
        | Except.error e => Except.error e
        | Except.ok r => Except.ok ((chunks.get ⟨p.1, h⟩, src, p.2) :: r)
      | none => Except.error "IndexError: list index out of range"
    else ragFormat chunks sources rest

/-- `InMemoryVectorStore.search(query, k)`: returns `[]` when the index
is unset or no chunks are stored; otherwise converts angular distances
to similarities `1 - d^2/2` and keeps in-range hits. -/
def InMemoryVectorStore.search (st : InMemoryVectorStore) (idxs : List Nat)
    (dists : List ℚ) : Except String (List (String × String × ℚ)) :=
  if st.index.isNone || decide (st.chunks = []) then Except.ok []
  else
    let sims := dists.map (fun d => 1 - d ^ 2 / 2)
    ragFormat st.chunks st.sources (idxs.zip sims)

/-- C4: Empty-store safety.  For every query (i.e. every possible ANN
reply) and every store that is unbuilt (no index, or `is_built` false)
or holds zero items, `VectorStore.search` returns `[]`, and
`InMemoryVectorStore.search` returns `[]` without raising. -/
theorem empty_store_search_empty :
    (∀ (st : VectorStoreState) (idxs : List Nat) (dists : List ℚ),
      st.index = none ∨ st.documents = [] ∨ st.is_built = false →
      st.search idxs dists = []) ∧
    (∀ (st : InMemoryVectorStore) (idxs : List Nat) (dists : List ℚ),
      st.index = none ∨ st.chunks = [] →
      st.search idxs dists = Except.ok []) := by
  constructor
  · intro st idxs dists h
    show (if st.index.isNone || st.documents.length == 0 || !st.is_built
      then [] else _) = []
    have hc : (st.index.isNone || st.documents.length == 0 || !st.is_built) = true := by
      rcases h with h | h | h <;> simp [h]
    rw [if_pos hc]
  · intro st idxs dists h
    show (if st.index.isNone || decide (st.chunks = []) then Except.ok [] else _)
      = Except.ok []
    have hc : (st.index.isNone || decide (st.chunks = [])) = true := by
      rcases h with h | h <;> simp [h]
    rw [if_pos hc]

/-- Witness for C4 on the freshly-initialized stores. -/
theorem empty_store_search_empty_witness :
    (initVectorStore.index = none ∨ initVectorStore.documents = [] ∨
      initVectorStore.is_built = false) ∧
    initVectorStore.search [0] [1] = [] ∧
    (initInMemoryStore.index = none ∨ initInMemoryStore.chunks = []) ∧
    initInMemoryStore.search [0] [1] = Except.ok [] :=
  ⟨Or.inl rfl, empty_store_search_empty.1 initVectorStore [0] [1] (Or.inl rfl),
    Or.inl rfl, empty_store_search_empty.2 initInMemoryStore [0] [1] (Or.inl rfl)⟩

/-- With aligned metadata, the `VectorStore.search` formatting loop never
raises and keeps exactly the in-range pairs, in order. -/
theorem formatResults_closed (docs : List String) (md : List Meta)
    (hlen : docs.length ≤ md.length) :
    ∀ pairs : List (Nat × ℚ),
    formatResults docs md pairs
      = Except.ok ((pairs.filter (fun p => decide (p.1 < docs.length))).map
          (fun p => ((docs[p.1]?).getD "", p.2, (md[p.1]?).getD emptyMeta))) := by
  intro pairs
  induction pairs with
  | nil => rfl
  | cons p rest ih =>
    show (if h : p.1 < docs.length then _ else _) = _
    by_cases h : p.1 < docs.length
    · rw [dif_pos h]
      have hmd : md[p.1]? = some md[p.1] := List.getElem?_eq_getElem (by omega)
      rw [hmd]
      show (match formatResults docs md rest with
        | Except.error e => Except.error e
        | Except.ok r => Except.ok ((docs.get ⟨p.1, h⟩, p.2, md[p.1]) :: r)) = _
      rw [ih, List.filter_cons_of_pos (by simpa using h), List.map_cons]
      have hdoc : (docs[p.1]?).getD "" = docs.get ⟨p.1, h⟩ := by
        rw [List.getElem?_eq_getElem h]
        simp [List.get_eq_getElem]
      have hmdd : (md[p.1]?).getD emptyMeta = md[p.1] := by
        rw [hmd]
        rfl
      rw [hdoc, hmdd]
    · rw [dif_neg h, ih, List.filter_cons_of_neg (by simpa using h)]

/-- Analogue of `formatResults_closed` for `InMemoryVectorStore.search`. -/
theorem ragFormat_closed (chunks sources : List String)
    (hlen : chunks.length ≤ sources.length) :
    ∀ pairs : List (Nat × ℚ),
    ragFormat chunks sources pairs
      = Except.ok ((pairs.filter (fun p => decide (p.1 < chunks.length))).map
          (fun p => ((chunks[p.1]?).getD "", (sources[p.1]?).getD "", p.2))) := by
  intro pairs
  induction pairs with
  | nil => rfl
  | cons p rest ih =>
    show (if h : p.1 < chunks.length then _ else _) = _
    by_cases h : p.1 < chunks.length
    · rw [dif_pos h]
      have hsrc : sources[p.1]? = some sources[p.1] := List.getElem?_eq_getElem (by omega)
      rw [hsrc]
      show (match ragFormat chunks sources rest with
        | Except.error e => Except.error e
        | Except.ok r => Except.ok ((chunks.get ⟨p.1, h⟩, sources[p.1], p.2) :: r)) = _
      rw [ih, List.filter_cons_of_pos (by simpa using h), List.map_cons]
      have hdoc : (chunks[p.1]?).getD "" = chunks.get ⟨p.1, h⟩ := by
        rw [List.getElem?_eq_getElem h]
        simp [List.get_eq_getElem]
      have hsrcd : (sources[p.1]?).getD "" = sources[p.1] := by
        rw [hsrc]
        rfl
      rw [hdoc, hsrcd]
    · rw [dif_neg h, ih, List.filter_cons_of_neg (by simpa using h)]

/-- Shared properties of a search result of the form
`map f (filter g (idxs.zip sims))` with `sims = map (1 - d^2/2) dists`:
bounded length, scores drawn from the distance list with the exact
conversion formula and bounded range, and descending score order. -/
theorem mapped_filter_scorebound {β : Type} (idxs : List Nat) (dists : List ℚ)
    (k : Nat) (hlen : idxs.length = dists.length) (hk : idxs.length ≤ k)
    (hd : ∀ d ∈ dists, 0 ≤ d ∧ d ≤ 2) (hsorted : List.Pairwise (· ≤ ·) dists)
    (g : Nat × ℚ → Bool) (f : Nat × ℚ → β) (score : β → ℚ)
    (hscore : ∀ p, score (f p) = p.2) :
    (((idxs.zip (dists.map (fun d => 1 - d ^ 2 / 2))).filter g).map f).length ≤ k ∧
    (∀ r ∈ ((idxs.zip (dists.map (fun d => 1 - d ^ 2 / 2))).filter g).map f,
      ∃ d ∈ dists, score r = 1 - d ^ 2 / 2 ∧ -1 ≤ score r ∧ score r ≤ 1) ∧
    List.Pairwise (fun a b => score b ≤ score a)
      (((idxs.zip (dists.map (fun d => 1 - d ^ 2 / 2))).filter g).map f) := by
  set sims := dists.map (fun d => 1 - d ^ 2 / 2) with hsims
  have hsimlen : sims.length = dists.length := List.length_map dists _
  refine ⟨?_, ?_, ?_⟩
  · calc (((idxs.zip sims).filter g).map f).length
        = ((idxs.zip sims).filter g).length := List.length_map _ _
      _ ≤ (idxs.zip sims).length := List.length_filter_le _ _
      _ = min idxs.length sims.length := List.length_zip idxs sims
      _ ≤ k := by omega
  · intro r hr
    rw [List.mem_map] at hr
    obtain ⟨p, hp, rfl⟩ := hr
    have hpz := List.mem_of_mem_filter hp
    have hp2 : p.2 ∈ sims := (List.of_mem_zip hpz).2
    rw [hsims, List.mem_map] at hp2
    obtain ⟨d, hdmem, hdp⟩ := hp2
    have hdb := hd d hdmem
    have hsq0 : 0 ≤ d ^ 2 := sq_nonneg d
    have hsq4 : d ^ 2 ≤ 4 := by nlinarith [hdb.1, hdb.2]
    refine ⟨d, hdmem, ?_, ?_, ?_⟩
    · rw [hscore, ← hdp]
    · rw [hscore, ← hdp]
      linarith
    · rw [hscore, ← hdp]
      linarith
  · have hsimsorted : List.Pairwise (fun a b => b ≤ a) sims := by
      rw [hsims, List.pairwise_map]
      refine hsorted.imp_of_mem ?_
      intro a b ha hb hab
      have ha0 := (hd a ha).1
      have : a ^ 2 ≤ b ^ 2 := pow_le_pow_left₀ ha0 hab 2
      linarith
    have hmapsnd : (idxs.zip sims).map Prod.snd = sims :=
      List.map_snd_zip idxs sims (by omega)
    have hzip : List.Pairwise (fun p q : Nat × ℚ => q.2 ≤ p.2) (idxs.zip sims) := by
      have := hmapsnd ▸ hsimsorted
      rw [List.pairwise_map] at this
      exact this
    have hfilter : List.Pairwise (fun p q : Nat × ℚ => q.2 ≤ p.2)
        ((idxs.zip sims).filter g) :=
      hzip.sublist (List.filter_sublist _)
    rw [List.pairwise_map]
    refine hfilter.imp_of_mem ?_
    intro a b _ _ hab
    rw [hscore, hscore]
    exact hab

/-- C3: Search result bound.  For every built (and index-aligned) store
and every `k ≥ 0`, given any ANN reply obeying Annoy's interface (equal
index/distance list lengths, at most `k` entries, ascending angular
distances in `[0, 2]`), `search` returns at most `k` tuples; every
returned similarity equals `1 - d^2/2` for one of the returned angular
distances `d` and lies in `[-1, 1]`; and the results are sorted in
descending similarity order.  Holds for `VectorStore.search` and
`InMemoryVectorStore.search`. -/
theorem search_result_bound (k : Nat) (idxs : List Nat) (dists : List ℚ)
    (hlen : idxs.length = dists.length) (hk : idxs.length ≤ k)
    (hd : ∀ d ∈ dists, 0 ≤ d ∧ d ≤ 2) (hsorted : List.Pairwise (· ≤ ·) dists) :
    (∀ st : VectorStoreState,
      st.document_metadata.length = st.documents.length →
      (st.search idxs dists).length ≤ k ∧
      (∀ r ∈ st.search idxs dists, ∃ d ∈ dists,
        r.2.1 = 1 - d ^ 2 / 2 ∧ -1 ≤ r.2.1 ∧ r.2.1 ≤ 1) ∧
      List.Pairwise (fun a b => b.2.1 ≤ a.2.1) (st.search idxs dists)) ∧
    (∀ st : InMemoryVectorStore,
      st.sources.length = st.chunks.length →
      ∀ l, st.search idxs dists = Except.ok l →
      l.length ≤ k ∧
      (∀ r ∈ l, ∃ d ∈ dists, r.2.2 = 1 - d ^ 2 / 2 ∧ -1 ≤ r.2.2 ∧ r.2.2 ≤ 1) ∧
      List.Pairwise (fun a b => b.2.2 ≤ a.2.2) l) := by
  constructor
  · intro st hmd
    by_cases hguard : (st.index.isNone || st.documents.length == 0 || !st.is_built) = true
    · have hnil : st.search idxs dists = [] := by
        show (if st.index.isNone || st.documents.length == 0 || !st.is_built
          then [] else _) = []
        rw [if_pos hguard]
      rw [hnil]
      refine ⟨by simp, by simp, by simp⟩
    · have hres : st.search idxs dists
          = (((idxs.zip (dists.map (fun d => 1 - d ^ 2 / 2))).filter
              (fun p => decide (p.1 < st.documents.length))).map
              (fun p => ((st.documents[p.1]?).getD "", p.2,
                (st.document_metadata[p.1]?).getD emptyMeta))) := by
        show (if st.index.isNone || st.documents.length == 0 || !st.is_built
          then [] else _) = _
        rw [if_neg hguard]
        show (match formatResults st.documents st.document_metadata
            (idxs.zip (dists.map (fun d => 1 - d ^ 2 / 2))) with
          | Except.ok r => r
          | Except.error _ => []) = _
        rw [formatResults_closed st.documents st.document_metadata (by omega) _]
      rw [hres]
      exact mapped_filter_scorebound idxs dists k hlen hk hd hsorted _ _
        (fun t : String × ℚ × Meta => t.2.1) (fun p => rfl)
  · intro st hsrc l hl
    by_cases hguard : (st.index.isNone || decide (st.chunks = [])) = true
    · have : st.search idxs dists = Except.ok [] := by
        show (if st.index.isNone || decide (st.chunks = [])
          then Except.ok [] else _) = _
        rw [if_pos hguard]
      rw [this] at hl
      obtain rfl : ([] : List (String × String × ℚ)) = l := by
        simpa using hl
      refine ⟨by simp, by simp, by simp⟩
    · have hres : st.search idxs dists
          = Except.ok (((idxs.zip (dists.map (fun d => 1 - d ^ 2 / 2))).filter
              (fun p => decide (p.1 < st.chunks.length))).map
              (fun p => ((st.chunks[p.1]?).getD "", (st.sources[p.1]?).getD "", p.2))) := by
        show (if st.index.isNone || decide (st.chunks = [])
          then Except.ok [] else _) = _
        rw [if_neg hguard]
        exact ragFormat_closed st.chunks st.sources (by omega) _
      rw [hres] at hl
      obtain rfl := (Except.ok.injEq _ _).mp hl
      exact mapped_filter_scorebound idxs dists k hlen hk hd hsorted _ _
        (fun t : String × String × ℚ => t.2.2) (fun p => rfl)

/-- A concrete built, aligned `VectorStore` used by witnesses. -/
def wStore : VectorStoreState :=
  { index := some { items := [0], built := true }
    documents := ["doc"]
    document_metadata := [emptyMeta]
    is_built := true }

/-- A concrete built, aligned `InMemoryVectorStore` used by witnesses. -/
def wStoreRag : InMemoryVectorStore :=
  { index := some { items := [0], built := true }
    chunks := ["doc"]
    sources := ["u"] }

/-- Witness for C3 on concrete one-element stores and the ANN reply
`([0], [1])` with `k = 5`. -/
theorem search_result_bound_witness :
    (([0] : List Nat).length = ([(1 : ℚ)] : List ℚ).length ∧
      ([0] : List Nat).length ≤ 5 ∧
      (∀ d ∈ ([(1 : ℚ)] : List ℚ), 0 ≤ d ∧ d ≤ 2) ∧
      List.Pairwise (· ≤ ·) ([(1 : ℚ)] : List ℚ)) ∧
    (wStore.document_metadata.length = wStore.documents.length ∧
      (wStore.search [0] [1]).length ≤ 5 ∧
      (∀ r ∈ wStore.search [0] [1], ∃ d ∈ ([(1 : ℚ)] : List ℚ),
        r.2.1 = 1 - d ^ 2 / 2 ∧ -1 ≤ r.2.1 ∧ r.2.1 ≤ 1) ∧
      List.Pairwise (fun a b => b.2.1 ≤ a.2.1) (wStore.search [0] [1])) ∧
    (wStoreRag.sources.length = wStoreRag.chunks.length ∧
      wStoreRag.search [0] [1] = Except.ok [("doc", "u", 1 - (1 : ℚ) ^ 2 / 2)] ∧
      ([("doc", "u", 1 - (1 : ℚ) ^ 2 / 2)] : List (String × String × ℚ)).length ≤ 5 ∧
      (∀ r ∈ ([("doc", "u", 1 - (1 : ℚ) ^ 2 / 2)] : List (String × String × ℚ)),
        ∃ d ∈ ([(1 : ℚ)] : List ℚ), r.2.2 = 1 - d ^ 2 / 2 ∧ -1 ≤ r.2.2 ∧ r.2.2 ≤ 1) ∧
      List.Pairwise (fun a b => b.2.2 ≤ a.2.2)
        ([("doc", "u", 1 - (1 : ℚ) ^ 2 / 2)] : List (String × String × ℚ))) := by
  have h := search_result_bound 5 [0] [(1 : ℚ)] rfl (by decide) (by decide) (by decide)
  have h1 := h.1 wStore rfl
  have hragres : wStoreRag.search [0] [(1 : ℚ)]
      = Except.ok [("doc", "u", 1 - (1 : ℚ) ^ 2 / 2)] := rfl
  have h2 := h.2 wStoreRag rfl [("doc", "u", 1 - (1 : ℚ) ^ 2 / 2)] hragres
  exact ⟨⟨rfl, by decide, by decide, by decide⟩, ⟨rfl, h1⟩, rfl, hragres, h2⟩

/-- C10: Implicit out-of-range guard.  On a built store, `search` keeps
exactly the ANN-returned indices that are valid positions in the stored
chunk array (`idx < len`), silently dropping out-of-range indices (as
after loading inconsistent persisted files) instead of raising; every
returned chunk is a stored chunk.  Holds for `VectorStore.search`
(metadata aligned with documents) and `InMemoryVectorStore.search`
(sources aligned with chunks). -/
theorem search_drops_out_of_range :
    (∀ (st : VectorStoreState) (idxs : List Nat) (dists : List ℚ),
      st.index.isNone = false → st.is_built = true →
      st.document_metadata.length = st.documents.length →
      st.search idxs dists
        = ((idxs.zip (dists.map (fun d => 1 - d ^ 2 / 2))).filter
            (fun p => decide (p.1 < st.documents.length))).map
            (fun p => ((st.documents[p.1]?).getD "", p.2,
              (st.document_metadata[p.1]?).getD emptyMeta)) ∧
      ∀ r ∈ st.search idxs dists, r.1 ∈ st.documents) ∧
    (∀ (st : InMemoryVectorStore) (idxs : List Nat) (dists : List ℚ),
      st.index.isNone = false →
      st.sources.length = st.chunks.length →
      st.search idxs dists
        = Except.ok (((idxs.zip (dists.map (fun d => 1 - d ^ 2 / 2))).filter
            (fun p => decide (p.1 < st.chunks.length))).map
            (fun p => ((st.chunks[p.1]?).getD "", (st.sources[p.1]?).getD "", p.2))) ∧
      ∀ l, st.search idxs dists = Except.ok l → ∀ r ∈ l, r.1 ∈ st.chunks) := by
  constructor
  · intro st idxs dists hidx hbuilt hmd
    have heq : st.search idxs dists
        = ((idxs.zip (dists.map (fun d => 1 - d ^ 2 / 2))).filter
            (fun p => decide (p.1 < st.documents.length))).map
            (fun p => ((st.documents[p.1]?).getD "", p.2,
              (st.document_metadata[p.1]?).getD emptyMeta)) := by
      by_cases hlen0 : st.documents.length = 0
      · have hguard : (st.index.isNone || st.documents.length == 0 || !st.is_built) = true := by
          simp [hlen0]
        have hl : st.search idxs dists = [] := by
          show (if st.index.isNone || st.documents.length == 0 || !st.is_built
            then [] else _) = []
          rw [if_pos hguard]
        rw [hl]
        have hnofilter : ∀ p ∈ idxs.zip (dists.map (fun d => 1 - d ^ 2 / 2)),
            ¬((fun p : Nat × ℚ => decide (p.1 < st.documents.length)) p = true) := by
          intro p _
          simp [hlen0]
        rw [List.filter_eq_nil_iff.mpr hnofilter]
        rfl
      · have hguard : (st.index.isNone || st.documents.length == 0 || !st.is_built) = false := by
          rw [hidx, hbuilt]
          simp only [Bool.false_or, Bool.not_true, Bool.or_false]
          simpa using hlen0
        show (if st.index.isNone || st.documents.length == 0 || !st.is_built
          then [] else _) = _
        rw [if_neg (by simp [hguard])]
        show (match formatResults st.documents st.document_metadata
            (idxs.zip (dists.map (fun d => 1 - d ^ 2 / 2))) with
          | Except.ok r => r
          | Except.error _ => []) = _
        rw [formatResults_closed st.documents st.document_metadata (by omega) _]
    refine ⟨heq, ?_⟩
    intro r hr
    rw [heq] at hr
    rw [List.mem_map] at hr
    obtain ⟨p, hp, rfl⟩ := hr
    have hpin := List.mem_filter.mp hp
    have hplt : p.1 < st.documents.length := of_decide_eq_true hpin.2
    show (st.documents[p.1]?).getD "" ∈ st.documents
    rw [List.getElem?_eq_getElem hplt]
    exact List.getElem_mem hplt
  · intro st idxs dists hidx hsrc
    have heq : st.search idxs dists
        = Except.ok (((idxs.zip (dists.map (fun d => 1 - d ^ 2 / 2))).filter
            (fun p => decide (p.1 < st.chunks.length))).map
            (fun p => ((st.chunks[p.1]?).getD "", (st.sources[p.1]?).getD "", p.2))) := by
      by_cases hlen0 : st.chunks = []
      · have hguard : (st.index.isNone || decide (st.chunks = [])) = true := by
          simp [hlen0]
        have hl : st.search idxs dists = Except.ok [] := by
          show (if st.index.isNone || decide (st.chunks = [])
            then Except.ok [] else _) = _
          rw [if_pos hguard]
        rw [hl]
        have hnofilter : ∀ p ∈ idxs.zip (dists.map (fun d => 1 - d ^ 2 / 2)),
            ¬((fun p : Nat × ℚ => decide (p.1 < st.chunks.length)) p = true) := by
          intro p _
          simp [hlen0]
        rw [List.filter_eq_nil_iff.mpr hnofilter]
        rfl
      · have hguard : (st.index.isNone || decide (st.chunks = [])) = false := by
          simp [hidx, hlen0]
        show (if st.index.isNone || decide (st.chunks = [])
          then Except.ok [] else _) = _
        rw [if_neg (by simp [hguard])]
        exact ragFormat_closed st.chunks st.sources (by omega) _
    refine ⟨heq, ?_⟩
    intro l hl r hr
    rw [heq] at hl
    obtain rfl := (Except.ok.injEq _ _).mp hl
    rw [List.mem_map] at hr
    obtain ⟨p, hp, rfl⟩ := hr
    have hpin := List.mem_filter.mp hp
    have hplt : p.1 < st.chunks.length := of_decide_eq_true hpin.2
    show (st.chunks[p.1]?).getD "" ∈ st.chunks
    rw [List.getElem?_eq_getElem hplt]
    exact List.getElem_mem hplt

/-- Witness for C10: the ANN reply `([0, 5], [0, 1])` against one-element
stores — index 5 is out of range and is silently dropped. -/
theorem search_drops_out_of_range_witness :
    (wStore.index.isNone = false ∧ wStore.is_built = true ∧
      wStore.document_metadata.length = wStore.documents.length ∧
      wStore.search [0, 5] [0, 1]
        = ((([0, 5] : List Nat).zip (([0, 1] : List ℚ).map (fun d => 1 - d ^ 2 / 2))).filter
            (fun p => decide (p.1 < wStore.documents.length))).map
            (fun p => ((wStore.documents[p.1]?).getD "", p.2,
              (wStore.document_metadata[p.1]?).getD emptyMeta)) ∧
      ∀ r ∈ wStore.search [0, 5] [0, 1], r.1 ∈ wStore.documents) ∧
    (wStoreRag.index.isNone = false ∧
      wStoreRag.sources.length = wStoreRag.chunks.length ∧
      wStoreRag.search [0, 5] [0, 1]
        = Except.ok (((([0, 5] : List Nat).zip (([0, 1] : List ℚ).map (fun d => 1 - d ^ 2 / 2))).filter
            (fun p => decide (p.1 < wStoreRag.chunks.length))).map
            (fun p => ((wStoreRag.chunks[p.1]?).getD "", (wStoreRag.sources[p.1]?).getD "", p.2))) ∧
      ∀ l, wStoreRag.search [0, 5] [0, 1] = Except.ok l → ∀ r ∈ l, r.1 ∈ wStoreRag.chunks) := by
  have h1 := search_drops_out_of_range.1 wStore [0, 5] [0, 1] rfl rfl rfl
  have h2 := search_drops_out_of_range.2 wStoreRag [0, 5] [0, 1] rfl rfl
  exact ⟨⟨rfl, rfl, rfl, h1⟩, rfl, rfl, h2⟩

/-- Number of vectors added to the ANN index (0 when no index exists). -/
def numIndexed (st : VectorStoreState) : Nat :=
  match st.index with
  | none => 0
  | some a => a.items.length

/-- Run a sequence of `create_embeddings` calls. -/
def runAdds : VectorStoreState → List (List String × Option (List Meta)) →
    Except String VectorStoreState
  | st, [] => Except.ok st
  | st, op :: rest =>
    match create_embeddings st op.1 op.2 with
    | Except.error e => Except.error e
    | Except.ok st1 => runAdds st1 rest

/-- Alignment invariant of the store arrays and the ANN index. -/
def Aligned (st : VectorStoreState) : Prop :=
  st.documents.length = st.document_metadata.length ∧
  numIndexed st = st.documents.length

/-- The store has not been built yet (neither flag nor Annoy index). -/
def NotBuilt (st : VectorStoreState) : Prop :=
  st.is_built = false ∧ ∀ a, st.index = some a → a.built = false

theorem addItems_ok (n : Nat) : ∀ (a : AnnoyState) (start : Nat), a.built = false →
    ∃ a', addItems a start n = Except.ok a' ∧
      a'.items.length = a.items.length + n ∧ a'.built = false := by
  induction n with
  | zero =>
    intro a start hb
    exact ⟨a, rfl, by omega, hb⟩
  | succ m ih =>
    intro a start hb
    have hadd : a.addItem start = Except.ok { a with items := a.items ++ [start] } := by
      show (if a.built then _ else _) = _
      rw [if_neg (by simp [hb])]
    obtain ⟨a', h1, h2, h3⟩ := ih { a with items := a.items ++ [start] } (start + 1) hb
    refine ⟨a', ?_, ?_, h3⟩
    · show (match a.addItem start with
        | Except.error e => Except.error e
        | Except.ok a2 => addItems a2 (start + 1) m) = _
      rw [hadd]
      exact h1
    · simp at h2
      omega

theorem create_embeddings_ok (st : VectorStoreState) (texts : List String)
    (md : Option (List Meta)) (hnb : NotBuilt st) (hal : Aligned st)
    (hmd : ∀ m, md = some m → m ≠ [] → m.length = texts.length) :
    ∃ st1, create_embeddings st texts md = Except.ok st1 ∧
      NotBuilt st1 ∧ Aligned st1 := by
  by_cases hts : texts = []
  · refine ⟨st, ?_, hnb, hal⟩
    show (if texts = [] then Except.ok st else _) = _
    rw [if_pos hts]
  · have hbuilt0 : (idxOrNew st).built = false := by
      unfold idxOrNew
      cases hix : st.index with
      | none => rfl
      | some a => exact hnb.2 a hix
    have hitems0 : (idxOrNew st).items.length = st.documents.length := by
      unfold idxOrNew
      cases hix : st.index with
      | none =>
        have h0 : numIndexed st = 0 := by
          unfold numIndexed
          rw [hix]
        have h1 := hal.2
        show ([] : List Nat).length = st.documents.length
        simp only [List.length_nil]
        omega
      | some a =>
        have h0 : numIndexed st = a.items.length := by
          unfold numIndexed
          rw [hix]
        have h1 := hal.2
        show a.items.length = st.documents.length
        omega
    obtain ⟨idx1, hok, hlen1, hb1⟩ :=
      addItems_ok texts.length (idxOrNew st) st.documents.length hbuilt0
    have hmdlen : (mdExtension texts md).length = texts.length := by
      unfold mdExtension
      cases md with
      | none => simp
      | some m =>
        show (if m = [] then List.replicate texts.length emptyMeta else m).length
          = texts.length
        by_cases hm : m = []
        · rw [if_pos hm]
          simp
        · rw [if_neg hm]
          exact hmd m rfl hm
    refine ⟨{ index := some idx1
              documents := st.documents ++ texts
              document_metadata := st.document_metadata ++ mdExtension texts md
              is_built := isBuiltAfter st }, ?_, ?_, ?_⟩
    · show (if texts = [] then Except.ok st else _) = _
      rw [if_neg hts]
      show (match addItems (idxOrNew st) st.documents.length texts.length with
        | Except.error e => Except.error e
        | Except.ok i1 => Except.ok
            ({ index := some i1
               documents := st.documents ++ texts
               document_metadata := st.document_metadata ++ mdExtension texts md
               is_built := isBuiltAfter st } : VectorStoreState)) = _
      rw [hok]
    · constructor
      · show isBuiltAfter st = false
        unfold isBuiltAfter
        cases st.index with
        | none => rfl
        | some a => exact hnb.1
      · intro a ha
        have heq : some idx1 = some a := ha
        cases heq
        exact hb1
    · constructor
      · show (st.documents ++ texts).length
          = (st.document_metadata ++ mdExtension texts md).length
        rw [List.length_append, List.length_append, hmdlen, hal.1]
      · show idx1.items.length = (st.documents ++ texts).length
        rw [hlen1, List.length_append, hitems0]

theorem runAdds_ok : ∀ (ops : List (List String × Option (List Meta)))
    (st : VectorStoreState), NotBuilt st → Aligned st →
    (∀ op ∈ ops, ∀ m, op.2 = some m → m ≠ [] → m.length = op.1.length) →
    ∃ st1, runAdds st ops = Except.ok st1 ∧ NotBuilt st1 ∧ Aligned st1 := by
  intro ops
  induction ops with
  | nil =>
    intro st hnb hal _
    exact ⟨st, rfl, hnb, hal⟩
  | cons op rest ih =>
    intro st hnb hal hops
    obtain ⟨st1, h1, hnb1, hal1⟩ := create_embeddings_ok st op.1 op.2 hnb hal
      (fun m hm => hops op (by simp) m hm)
    obtain ⟨st2, h2, hnb2, hal2⟩ := ih st1 hnb1 hal1
      (fun o ho => hops o (List.mem_cons_of_mem op ho))
    refine ⟨st2, ?_, hnb2, hal2⟩
    show (match create_embeddings st op.1 op.2 with
      | Except.error e => Except.error e
      | Except.ok s => runAdds s rest) = _
    rw [h1]
    exact h2

/-- C5 counterexample: a single `create_embeddings` call with two texts
but a supplied metadata list of length one (non-empty, so Python's
`if metadata:` is truthy and extends it as-is) leaves 2 documents,
1 metadata entry and 2 indexed vectors after the build — the three
lengths are not all equal. -/
theorem index_alignment_counterexample :
    ((runAdds initVectorStore [(["a", "b"], some [emptyMeta])]) >>= build_index).map
      (fun st => (st.documents.length, st.document_metadata.length, numIndexed st))
      = Except.ok (2, 1, 2) ∧ (2 : Nat) ≠ 1 := by
  exact ⟨rfl, by decide⟩

/-- C5 (amended): for every sequence of `create_embeddings` calls from a
fresh store followed by `build_index`, *provided every supplied non-empty
metadata list has the same length as its texts list*, the sequence
succeeds and afterwards the document array, the metadata array and the
ANN index vector count all have equal length. -/
theorem index_alignment (ops : List (List String × Option (List Meta)))
    (hops : ∀ op ∈ ops, ∀ m, op.2 = some m → m ≠ [] → m.length = op.1.length) :
    ∃ st1 st2, runAdds initVectorStore ops = Except.ok st1 ∧
      build_index st1 = Except.ok st2 ∧
      st2.documents.length = st2.document_metadata.length ∧
      numIndexed st2 = st2.documents.length := by
  obtain ⟨st1, h1, hnb1, hal1⟩ := runAdds_ok ops initVectorStore
    ⟨rfl, fun a ha => by cases ha⟩ ⟨rfl, rfl⟩ hops
  have hbuild : ∃ st2, build_index st1 = Except.ok st2 ∧
      st2.documents.length = st2.document_metadata.length ∧
      numIndexed st2 = st2.documents.length := by
    cases hix : st1.index with
    | none =>
      refine ⟨st1, ?_, hal1.1, hal1.2⟩
      unfold build_index
      rw [hix]
    | some a =>
      by_cases hlen : 0 < st1.documents.length
      · have hb : a.buildTrees = Except.ok { a with built := true } := by
          show (if a.built then _ else _) = _
          rw [if_neg (by simp [hnb1.2 a hix])]
        refine ⟨{ st1 with index := some { a with built := true }, is_built := true },
          ?_, hal1.1, ?_⟩
        · unfold build_index
          rw [hix]
          show (if st1.is_built = false ∧ 0 < st1.documents.length then
              match a.buildTrees with
              | Except.error e => Except.error e
              | Except.ok a2 => Except.ok { st1 with index := some a2, is_built := true }
            else Except.ok st1) = _
          rw [if_pos ⟨hnb1.1, hlen⟩, hb]
        · have h0 : numIndexed st1 = a.items.length := by
            unfold numIndexed
            rw [hix]
          have h1' := hal1.2
          show a.items.length = st1.documents.length
          omega
      · refine ⟨st1, ?_, hal1.1, hal1.2⟩
        unfold build_index
        rw [hix]
        show (if st1.is_built = false ∧ 0 < st1.documents.length then _
          else Except.ok st1) = _
        rw [if_neg (by omega)]
  obtain ⟨st2, h2, h3, h4⟩ := hbuild
  exact ⟨st1, st2, h1, h2, h3, h4⟩

/-- Witness for C5 (amended): one add of one text with one metadata
dict. -/
theorem index_alignment_witness :
    (∀ op ∈ [((["a"], some [emptyMeta]) : List String × Option (List Meta))],
      ∀ m, op.2 = some m → m ≠ [] → m.length = op.1.length) ∧
    (∃ st1 st2, runAdds initVectorStore [(["a"], some [emptyMeta])] = Except.ok st1 ∧
      build_index st1 = Except.ok st2 ∧
      st2.documents.length = st2.document_metadata.length ∧
      numIndexed st2 = st2.documents.length) := by
  have hops : ∀ op ∈ [((["a"], some [emptyMeta]) : List String × Option (List Meta))],
      ∀ m, op.2 = some m → m ≠ [] → m.length = op.1.length := by
    intro op hop m hm _
    rw [List.mem_singleton] at hop
    subst hop
    obtain rfl : [emptyMeta] = m := by simpa using hm
    rfl
  exact ⟨hops, index_alignment _ hops⟩

/-- C6 counterexample: the call sequence `add ["a"]; build; add ["b"]`
raises (Annoy rejects `add_item` on a built index), so after
`add; build; add; build` the items of the second add are never indexed
or searchable — the whole sequence errors at the second add. -/
theorem build_semantics_counterexample :
    ((create_embeddings initVectorStore ["a"] none) >>= build_index >>=
      (fun st => create_embeddings st ["b"] none))
      = Except.error "You can't add an item to a built index" := rfl

/-- C6 (amended): `build_index` finalizes the ANN structure over all
items added so far (same item set, `is_built := true`) when an index
exists, the store is not yet built and at least one document is stored;
it is a no-op whenever there is no index, the store is already built, or
no documents are stored — not only in the already-built-and-nothing-new
case, because Annoy rejects any `add_item` after a build, so
`create_embeddings` on a built store errors instead of accumulating new
items; `build_index` on a fresh store (zero items ever added) is a no-op
leaving the store non-searchable. -/
theorem build_semantics :
    (∀ (st : VectorStoreState) (a : AnnoyState),
      st.index = some a → st.is_built = false → a.built = false →
      0 < st.documents.length →
      build_index st = Except.ok
        { st with index := some { a with built := true }, is_built := true }) ∧
    (∀ st : VectorStoreState,
      st.index = none ∨ st.is_built = true ∨ st.documents.length = 0 →
      build_index st = Except.ok st) ∧
    (∀ (st : VectorStoreState) (a : AnnoyState) (texts : List String)
      (md : Option (List Meta)), st.index = some a → a.built = true → texts ≠ [] →
      create_embeddings st texts md
        = Except.error "You can't add an item to a built index") ∧
    (build_index initVectorStore = Except.ok initVectorStore ∧
      ∀ (idxs : List Nat) (dists : List ℚ), initVectorStore.search idxs dists = []) := by
  refine ⟨?_, ?_, ?_, rfl, fun idxs dists => rfl⟩
  · intro st a hix hnb hab hlen
    unfold build_index
    rw [hix]
    show (if st.is_built = false ∧ 0 < st.documents.length then
        match a.buildTrees with
        | Except.error e => Except.error e
        | Except.ok a2 => Except.ok { st with index := some a2, is_built := true }
      else Except.ok st) = _
    rw [if_pos ⟨hnb, hlen⟩]
    have hb : a.buildTrees = Except.ok { a with built := true } := by
      show (if a.built then _ else _) = _
      rw [if_neg (by simp [hab])]
    rw [hb]
  · intro st h
    unfold build_index
    cases hix : st.index with
    | none => rfl
    | some a =>
      show (if st.is_built = false ∧ 0 < st.documents.length then _
        else Except.ok st) = _
      rw [if_neg]
      rcases h with h | h | h
      · rw [hix] at h
        cases h
      · intro hc
        rw [h] at hc
        cases hc.1
      · intro hc
        omega
  · intro st a texts md hix hab hts
    show (if texts = [] then Except.ok st else _) = _
    rw [if_neg hts]
    have hidx : idxOrNew st = a := by
      unfold idxOrNew
      rw [hix]
    cases texts with
    | nil => exact absurd rfl hts
    | cons t ts =>
      have haddfail : addItems (idxOrNew st) st.documents.length (t :: ts).length
          = Except.error "You can't add an item to a built index" := by
        rw [hidx]
        show (match a.addItem st.documents.length with
          | Except.error e => Except.error e
          | Except.ok a2 => addItems a2 (st.documents.length + 1) ts.length) = _
        have : a.addItem st.documents.length
            = Except.error "You can't add an item to a built index" := by
          show (if a.built then _ else _) = _
          rw [if_pos hab]
        rw [this]
      show (match addItems (idxOrNew st) st.documents.length (t :: ts).length with
        | Except.error e => Except.error e
        | Except.ok idx1 => Except.ok _) = _
      rw [haddfail]

/-- A concrete one-item, not-yet-built store used by the C6 witness. -/
def w6Store : VectorStoreState :=
  { index := some { items := [0], built := false }
    documents := ["a"]
    document_metadata := [emptyMeta]
    is_built := false }

/-- Witness for C6 (amended), discharging each hypothesis at concrete
stores: a one-item unbuilt store for the build case, the fresh store for
the no-op case, and a built store for the failing-add case. -/
theorem build_semantics_witness :
    (w6Store.index = some { items := [0], built := false } ∧ w6Store.is_built = false ∧
      ({ items := [0], built := false } : AnnoyState).built = false ∧
      0 < w6Store.documents.length ∧
      build_index w6Store = Except.ok
        { w6Store with index := some { items := ([0] : List Nat), built := true }, is_built := true }) ∧
    (initVectorStore.index = none ∧
      build_index initVectorStore = Except.ok initVectorStore) ∧
    (wStore.index = some { items := [0], built := true } ∧
      ({ items := [0], built := true } : AnnoyState).built = true ∧
      (["x"] : List String) ≠ [] ∧
      create_embeddings wStore ["x"] none
        = Except.error "You can't add an item to a built index") := by
  refine ⟨⟨rfl, rfl, rfl, by decide, ?_⟩, ⟨rfl, ?_⟩, rfl, rfl, by decide, ?_⟩
  · exact build_semantics.1 w6Store { items := [0], built := false } rfl rfl rfl (by decide)
  · exact build_semantics.2.1 initVectorStore (Or.inl rfl)
  · exact build_semantics.2.2.1 wStore { items := [0], built := true } ["x"] none rfl rfl
      (by decide)

/-- The fields `KnowledgeProcessor.get_relevant_info` reads from the
`user_input` dict (each with default `""` / `[]`). -/
structure UserInput where
  destination : String
  source : String
  interests : List String
  preferences : String
  accommodation_style : String
  accommodation_type : List String
deriving Repr, DecidableEq

/-- The sub-query list built by `get_relevant_info`: nine fixed
templates, one query per interest, one per accommodation type, and one
for a non-empty free-text preference (Python's `if preferences:`). -/
def queries (ui : UserInput) : List String :=
  ["best attractions in " ++ ui.destination,
   "hotels accommodation in " ++ ui.destination ++ " " ++ ui.accommodation_style,
   "local food restaurants in " ++ ui.destination,
   "transportation options from " ++ ui.source ++ " to " ++ ui.destination,
   "transportation options in " ++ ui.destination,
   "cultural tips for " ++ ui.destination,
   "current events in " ++ ui.destination ++ " 2024",
   "entry requirements for " ++ ui.destination,
   "visa requirements for " ++ ui.destination]
  ++ ui.interests.map (fun i => i ++ " in " ++ ui.destination)
  ++ ui.accommodation_type.map (fun t => t ++ " in " ++ ui.destination)
  ++ (if ui.preferences = "" then [] else [ui.preferences ++ " in " ++ ui.destination])

/-- The fixed similarity floor `0.6` of `get_relevant_info`. -/
def simFloor : ℚ := mkRat 6 10

/-- The inner loop of `get_relevant_info` over one sub-query's results:
`if doc not in all_results and score > 0.6: all_results.append(doc)`. -/
def scanResults (acc : List String) : List (String × ℚ × Meta) → List String
  | [] => acc
  | (doc, score, _) :: rest =>
    scanResults (if doc ∉ acc ∧ simFloor < score then acc ++ [doc] else acc) rest

/-- The outer loop of `get_relevant_info` over all sub-queries; `f q`
stands for `self.vector_store.search(q, 3)`. -/
def accumulateQueries (f : String → List (String × ℚ × Meta)) :
    List String → List String → List String
  | acc, [] => acc
  | acc, q :: qs => accumulateQueries f (scanResults acc (f q)) qs

/-- The chunk list underlying `get_relevant_info`'s return value:
`all_results[:15]`. -/
def get_relevant_info_list (ui : UserInput)
    (f : String → List (String × ℚ × Meta)) : List String :=
  (accumulateQueries f [] (queries ui)).take 15

/-- `KnowledgeProcessor.get_relevant_info`: `"\n\n".join(all_results[:15])`. -/
def get_relevant_info (ui : UserInput)
    (f : String → List (String × ℚ × Meta)) : String :=
  String.intercalate "\n\n" (get_relevant_info_list ui f)

theorem scanResults_mem (res : List (String × ℚ × Meta)) :
    ∀ (acc : List String) (doc : String), doc ∈ scanResults acc res →
      doc ∈ acc ∨ ∃ s m, (doc, s, m) ∈ res ∧ simFloor < s := by
  induction res with
  | nil =>
    intro acc doc h
    exact Or.inl h
  | cons t rest ih =>
    intro acc doc h
    obtain ⟨d, s, m⟩ := t
    rcases ih _ doc h with hin | ⟨s', m', hmem, hs'⟩
    · by_cases hc : d ∉ acc ∧ simFloor < s
      · rw [if_pos hc] at hin
        rw [List.mem_append] at hin
        rcases hin with hin | hin
        · exact Or.inl hin
        · rw [List.mem_singleton] at hin
          subst hin
          exact Or.inr ⟨s, m, by simp, hc.2⟩
      · rw [if_neg hc] at hin
        exact Or.inl hin
    · exact Or.inr ⟨s', m', List.mem_cons_of_mem _ hmem, hs'⟩

theorem accumulateQueries_mem (f : String → List (String × ℚ × Meta)) :
    ∀ (qs : List String) (acc : List String) (doc : String),
      doc ∈ accumulateQueries f acc qs →
      doc ∈ acc ∨ ∃ q ∈ qs, ∃ s m, (doc, s, m) ∈ f q ∧ simFloor < s := by
  intro qs
  induction qs with
  | nil =>
    intro acc doc h
    exact Or.inl h
  | cons q rest ih =>
    intro acc doc h
    rcases ih _ doc h with hin | ⟨q', hq', s, m, hmem, hs⟩
    · rcases scanResults_mem (f q) acc doc hin with hin' | ⟨s, m, hmem, hs⟩
      · exact Or.inl hin'
      · exact Or.inr ⟨q, by simp, s, m, hmem, hs⟩
    · exact Or.inr ⟨q', List.mem_cons_of_mem _ hq', s, m, hmem, hs⟩

/-- C7: Score floor.  Every chunk in the evidence returned by
`get_relevant_info` (for any request and any behaviour `f` of the
underlying `search`) was returned by some sub-query's search with a
similarity score not below the fixed floor 0.6; no hit scoring below the
floor ever appears (the code's test is even strict: `score > 0.6`). -/
theorem score_floor (ui : UserInput) (f : String → List (String × ℚ × Meta)) :
    ∀ doc ∈ get_relevant_info_list ui f, ∃ q ∈ queries ui, ∃ s m,
      (doc, s, m) ∈ f q ∧ simFloor < s ∧ simFloor ≤ s := by
  intro doc hdoc
  have hmem : doc ∈ accumulateQueries f [] (queries ui) :=
    List.mem_of_mem_take hdoc
  rcases accumulateQueries_mem f (queries ui) [] doc hmem with hin | ⟨q, hq, s, m, h1, h2⟩
  · exact absurd hin (List.not_mem_nil doc)
  · exact ⟨q, hq, s, m, h1, h2, le_of_lt h2⟩

/-- Concrete request used by the orchestrator witnesses. -/
def uiW : UserInput :=
  { destination := "Paris", source := "Rome", interests := [],
    preferences := "", accommodation_style := "", accommodation_type := [] }

/-- Concrete search behaviour: one high-scoring hit for one sub-query. -/
def fW : String → List (String × ℚ × Meta) := fun q =>
  if q = "best attractions in Paris" then [("c1", mkRat 9 10, emptyMeta)] else []

/-- Witness for C7: `"c1"` appears in the evidence and is justified by a
hit with score `0.9 ≥ 0.6`. -/
theorem score_floor_witness :
    "c1" ∈ get_relevant_info_list uiW fW ∧
    (∃ q ∈ queries uiW, ∃ s m, ("c1", s, m) ∈ fW q ∧ simFloor < s ∧ simFloor ≤ s) :=
  ⟨by decide, score_floor uiW fW "c1" (by decide)⟩

/-- Keep the first occurrence of each element, in first-occurrence
order (the spec's "first occurrence wins" dedup). -/
def dedupKeepFirst : List String → List String
  | [] => []
  | x :: xs => x :: (dedupKeepFirst xs).filter (fun y => decide (y ≠ x))

/-- The floor-passing documents of all sub-queries, concatenated in
sub-query order, then per-result order. -/
def passingDocs (f : String → List (String × ℚ × Meta)) (qs : List String) : List String :=
  qs.flatMap (fun q => (f q).filterMap
    (fun t => if simFloor < t.2.1 then some t.1 else none))

/-- Append-if-unseen processing of a document stream. -/
def processStream (acc : List String) : List String → List String
  | [] => acc
  | d :: ds => processStream (if d ∈ acc then acc else acc ++ [d]) ds

theorem scanResults_eq_processStream (res : List (String × ℚ × Meta)) :
    ∀ acc, scanResults acc res = processStream acc
      (res.filterMap (fun t => if simFloor < t.2.1 then some t.1 else none)) := by
  induction res with
  | nil => intro acc; rfl
  | cons t rest ih =>
    intro acc
    obtain ⟨d, s, m⟩ := t
    show scanResults (if d ∉ acc ∧ simFloor < s then acc ++ [d] else acc) rest = _
    simp only [List.filterMap_cons]
    by_cases hs : simFloor < s
    · rw [if_pos (show simFloor < (d, s, m).2.1 from hs)]
      show scanResults (if d ∉ acc ∧ simFloor < s then acc ++ [d] else acc) rest
        = processStream (if d ∈ acc then acc else acc ++ [d])
            (rest.filterMap (fun t => if simFloor < t.2.1 then some t.1 else none))
      by_cases hd : d ∈ acc
      · rw [if_neg (fun hc => hc.1 hd), if_pos hd]
        exact ih acc
      · rw [if_pos ⟨hd, hs⟩, if_neg hd]
        exact ih (acc ++ [d])
    · rw [if_neg (show ¬simFloor < (d, s, m).2.1 from hs)]
      show scanResults (if d ∉ acc ∧ simFloor < s then acc ++ [d] else acc) rest
        = processStream acc
            (rest.filterMap (fun t => if simFloor < t.2.1 then some t.1 else none))
      rw [if_neg (fun hc => hs hc.2)]
      exact ih acc

theorem processStream_append (xs : List String) :
    ∀ (ys : List String) (acc : List String),
      processStream acc (xs ++ ys) = processStream (processStream acc xs) ys := by
  induction xs with
  | nil => intro ys acc; rfl
  | cons x xs ih =>
    intro ys acc
    show processStream (if x ∈ acc then acc else acc ++ [x]) (xs ++ ys) = _
    exact ih ys _

theorem accumulateQueries_eq_processStream (f : String → List (String × ℚ × Meta)) :
    ∀ (qs : List String) (acc : List String),
      accumulateQueries f acc qs = processStream acc (passingDocs f qs) := by
  intro qs
  induction qs with
  | nil => intro acc; rfl
  | cons q qs ih =>
    intro acc
    show accumulateQueries f (scanResults acc (f q)) qs = _
    rw [ih, scanResults_eq_processStream]
    show _ = processStream acc (passingDocs f (q :: qs))
    have hcons : passingDocs f (q :: qs)
        = ((f q).filterMap (fun t => if simFloor < t.2.1 then some t.1 else none))
          ++ passingDocs f qs := by
      unfold passingDocs
      rw [List.flatMap_cons]
    rw [hcons, processStream_append]

theorem dedupKeepFirst_filter : ∀ (l : List String) (p : String → Bool),
    (dedupKeepFirst l).filter p = dedupKeepFirst (l.filter p) := by
  intro l
  induction l with
  | nil => intro p; rfl
  | cons x xs ih =>
    intro p
    by_cases hp : p x = true
    · rw [List.filter_cons_of_pos hp]
      show (x :: (dedupKeepFirst xs).filter (fun y => decide (y ≠ x))).filter p
        = x :: (dedupKeepFirst (xs.filter p)).filter (fun y => decide (y ≠ x))
      rw [List.filter_cons_of_pos hp, ← ih p, List.filter_filter, List.filter_filter]
      apply congrArg
      apply List.filter_congr
      intro y _
      rw [Bool.and_comm]
    · rw [List.filter_cons_of_neg (by simp [hp])]
      show (x :: (dedupKeepFirst xs).filter (fun y => decide (y ≠ x))).filter p
        = dedupKeepFirst (xs.filter p)
      rw [List.filter_cons_of_neg (by simp [hp]), List.filter_filter, ← ih p]
      apply List.filter_congr
      intro y _
      by_cases hy : y = x
      · subst hy
        simp [hp]
      · simp [hy]

theorem processStream_eq_dedup : ∀ (ds : List String) (acc : List String),
    processStream acc ds = acc ++ dedupKeepFirst
      (ds.filter (fun d => decide (d ∉ acc))) := by
  intro ds
  induction ds with
  | nil =>
    intro acc
    show acc = acc ++ dedupKeepFirst []
    rw [show dedupKeepFirst [] = [] from rfl, List.append_nil]
  | cons d ds ih =>
    intro acc
    show processStream (if d ∈ acc then acc else acc ++ [d]) ds = _
    by_cases hd : d ∈ acc
    · rw [if_pos hd, ih acc, List.filter_cons_of_neg (by simp [hd])]
    · rw [if_neg hd, ih (acc ++ [d]), List.filter_cons_of_pos (by simp [hd])]
      show acc ++ [d] ++ _ = acc ++ dedupKeepFirst (d :: ds.filter (fun x => decide (x ∉ acc)))
      have hstep : dedupKeepFirst (d :: ds.filter (fun x => decide (x ∉ acc)))
          = d :: (dedupKeepFirst (ds.filter (fun x => decide (x ∉ acc)))).filter
              (fun y => decide (y ≠ d)) := rfl
      rw [hstep, dedupKeepFirst_filter, List.filter_filter]
      have hpred : ds.filter (fun a => decide (a ≠ d) && decide (a ∉ acc))
          = ds.filter (fun x => decide (x ∉ acc ++ [d])) := by
        apply List.filter_congr
        intro y _
        by_cases hy : y = d
        · subst hy
          simp
        · by_cases hyacc : y ∈ acc
          · simp [hy, hyacc]
          · simp [hy, hyacc]
      rw [hpred, List.append_assoc, List.singleton_append]

theorem dedupKeepFirst_nodup : ∀ l : List String, (dedupKeepFirst l).Nodup := by
  intro l
  induction l with
  | nil => exact List.nodup_nil
  | cons x xs ih =>
    show (x :: (dedupKeepFirst xs).filter (fun y => decide (y ≠ x))).Nodup
    refine List.nodup_cons.mpr ⟨?_, ih.filter _⟩
    intro hmem
    have := (List.mem_filter.mp hmem).2
    simp at this

/-- C8 counterexample: two sub-queries of a concrete request share the
identical chunk text `"shared"`, but both hits score 0.5 < 0.6, so the
merged output contains the shared chunk ZERO times — not exactly once as
the claim states. -/
theorem dedup_merge_counterexample :
    "best attractions in X" ∈ queries
      { destination := "X", source := "", interests := [], preferences := "",
        accommodation_style := "", accommodation_type := [] } ∧
    "local food restaurants in X" ∈ queries
      { destination := "X", source := "", interests := [], preferences := "",
        accommodation_style := "", accommodation_type := [] } ∧
    ("best attractions in X" : String) ≠ "local food restaurants in X" ∧
    ("shared", mkRat 1 2, emptyMeta) ∈
      (fun q => if q = "best attractions in X" ∨ q = "local food restaurants in X"
        then [("shared", mkRat 1 2, emptyMeta)] else ([] : List (String × ℚ × Meta)))
        "best attractions in X" ∧
    ("shared", mkRat 1 2, emptyMeta) ∈
      (fun q => if q = "best attractions in X" ∨ q = "local food restaurants in X"
        then [("shared", mkRat 1 2, emptyMeta)] else ([] : List (String × ℚ × Meta)))
        "local food restaurants in X" ∧
    List.count "shared" (get_relevant_info_list
      { destination := "X", source := "", interests := [], preferences := "",
        accommodation_style := "", accommodation_type := [] }
      (fun q => if q = "best attractions in X" ∨ q = "local food restaurants in X"
        then [("shared", mkRat 1 2, emptyMeta)] else [])) = 0 := by
  decide

/-- C8 (amended): the merged output of `get_relevant_info` is exactly the
first 15 entries of the first-occurrence-wins deduplication of the
floor-passing hits in sub-query order, and is duplicate-free: a chunk
text shared by several sub-queries appears AT MOST once — exactly once
when at least one of its hits beats the 0.6 floor and it falls within
the first 15 kept chunks, and the occurrence kept is the first
floor-passing one encountered in sub-query order. -/
theorem dedup_merge (ui : UserInput) (f : String → List (String × ℚ × Meta)) :
    get_relevant_info_list ui f
      = (dedupKeepFirst (passingDocs f (queries ui))).take 15 ∧
    (get_relevant_info_list ui f).Nodup := by
  have h1 : accumulateQueries f [] (queries ui)
      = dedupKeepFirst (passingDocs f (queries ui)) := by
    rw [accumulateQueries_eq_processStream, processStream_eq_dedup]
    rw [List.nil_append]
    apply congrArg
    apply List.filter_eq_self.mpr
    intro a _
    simp
  constructor
  · show (accumulateQueries f [] (queries ui)).take 15 = _
    rw [h1]
  · show ((accumulateQueries f [] (queries ui)).take 15).Nodup
    rw [h1]
    exact (dedupKeepFirst_nodup _).sublist (List.take_sublist _ _)

/-- The `blocked_domains` list of `WebSearch.__init__`. -/
def blocked_domains : List String :=
  ["tripadvisor.com", "expedia.com", "booking.com", "travelweekly.com", "hotels.com"]

/-- Is `pre` a prefix of the second list? -/
def listPrefixOf : List Char → List Char → Bool
  | [], _ => true
  | _ :: _, [] => false
  | c :: cs, d :: ds => c == d && listPrefixOf cs ds

/-- Is the first list a contiguous sublist of the second? -/
def listInfixOf (needle : List Char) : List Char → Bool
  | [] => listPrefixOf needle []
  | h :: hs => listPrefixOf needle (h :: hs) || listInfixOf needle hs

/-- Python's substring test `needle in haystack`. -/
def pyIn (needle hay : String) : Bool := listInfixOf needle.data hay.data

/-- `WebSearch.is_blocked_domain(url)`:
`any(domain in url for domain in self.blocked_domains)`. -/
def is_blocked_domain (url : String) : Bool :=
  blocked_domains.any (fun d => pyIn d url)

/-- One DuckDuckGo result as consumed by `rag.gather_corpus`
(`res.get("href") or res.get("link") or ""`; a missing key and an empty
string are both falsy, so both are modelled as `""`). -/
structure DDGResult where
  href : String
  link : String
deriving Repr, DecidableEq

def resUrl (r : DDGResult) : String :=
  if r.href ≠ "" then r.href else if r.link ≠ "" then r.link else ""

/-- The loop of `rag.gather_corpus` over the search results, also
returning the trace of URLs passed to `fetch_page_text` (note: NO
blocklist check appears anywhere in this loop).  Returns
`(corpus, fetch_trace)`. -/
def gatherCorpusLoop (fetchFn : String → List Char) (top_sources : Nat) :
    List DDGResult → Nat → List (List Char × String) × List String
  | [], _ => ([], [])
  | res :: rest, used =>
    if top_sources ≤ used then ([], [])
    else
      if resUrl res = "" then gatherCorpusLoop fetchFn top_sources rest used
      else
        if fetchFn (resUrl res) = [] then
          ((gatherCorpusLoop fetchFn top_sources rest used).1,
            resUrl res :: (gatherCorpusLoop fetchFn top_sources rest used).2)
        else
          ((rag_chunk_text (fetchFn (resUrl res)) 220 40).map
              (fun c => (c, resUrl res))
            ++ (gatherCorpusLoop fetchFn top_sources rest (used + 1)).1,
            resUrl res :: (gatherCorpusLoop fetchFn top_sources rest (used + 1)).2)

/-- `rag.gather_corpus(query, top_sources)`: `fetchFn` stands for
`fetch_page_text` and `results` for the DDG reply. -/
def gather_corpus (fetchFn : String → List Char) (results : List DDGResult)
    (top_sources : Nat) : List (List Char × String) × List String :=
  gatherCorpusLoop fetchFn top_sources results 0

/-- One DuckDuckGo result as consumed by
`WebSearch.get_destination_info` (`result['href']`, `result['title']`). -/
structure GDIResult where
  href : String
  title : String
deriving Repr, DecidableEq

/-- The inner result loop of `WebSearch.get_destination_info`: break at
3 successful fetches, `continue` on a blocked domain BEFORE fetching,
otherwise fetch (`get_page_content`), and append a source block when the
content is non-empty.  Returns `(all_content, successful_fetches,
fetch_trace)`. -/
def gdiResultsLoop (fetchFn : String → List Char) :
    List GDIResult → Nat → List Char × Nat × List String
  | [], succ => ([], succ, [])
  | r :: rest, succ =>
    if 3 ≤ succ then ([], succ, [])
    else if is_blocked_domain r.href then gdiResultsLoop fetchFn rest succ
    else
      if fetchFn r.href = [] then
        ((gdiResultsLoop fetchFn rest succ).1,
          (gdiResultsLoop fetchFn rest succ).2.1,
          r.href :: (gdiResultsLoop fetchFn rest succ).2.2)
      else
        (("--- Source: " ++ r.title ++ " ---\n").data ++ fetchFn r.href
            ++ '\n' :: '\n' :: (gdiResultsLoop fetchFn rest (succ + 1)).1,
          (gdiResultsLoop fetchFn rest (succ + 1)).2.1,
          r.href :: (gdiResultsLoop fetchFn rest (succ + 1)).2.2)

/-- The outer query loop of `WebSearch.get_destination_info`; each entry
of `queryResults` is the DDG reply for one of the fixed search queries.
(The final fallback message on empty content affects only the returned
text, not the fetch trace.) -/
def gdiQueriesLoop (fetchFn : String → List Char) :
    List (List GDIResult) → Nat → List Char × Nat × List String
  | [], succ => ([], succ, [])
  | results :: qrest, succ =>
    if 3 ≤ succ then ([], succ, [])
    else
      ((gdiResultsLoop fetchFn results succ).1
          ++ (gdiQueriesLoop fetchFn qrest (gdiResultsLoop fetchFn results succ).2.1).1,
        (gdiQueriesLoop fetchFn qrest (gdiResultsLoop fetchFn results succ).2.1).2.1,
        (gdiResultsLoop fetchFn results succ).2.2
          ++ (gdiQueriesLoop fetchFn qrest (gdiResultsLoop fetchFn results succ).2.1).2.2)

/-- The corpus-gathering pass of `WebSearch.get_destination_info`. -/
def get_destination_info_run (fetchFn : String → List Char)
    (queryResults : List (List GDIResult)) : List Char × Nat × List String :=
  gdiQueriesLoop fetchFn queryResults 0

/-- C9 counterexample: `rag.gather_corpus` performs NO blocklist check —
given a search reply containing a tripadvisor.com URL (a blocked,
anti-scraping domain), it issues a page fetch for that URL. -/
theorem blocklist_before_fetch_counterexample :
    is_blocked_domain "https://www.tripadvisor.com/Tourism" = true ∧
    "https://www.tripadvisor.com/Tourism" ∈
      (gather_corpus (fun _ => ['h', 'i'])
        [{ href := "https://www.tripadvisor.com/Tourism", link := "" }] 3).2 := by
  decide

theorem gdiResultsLoop_trace_ok (fetchFn : String → List Char) :
    ∀ (results : List GDIResult) (succ : Nat) (u : String),
      u ∈ (gdiResultsLoop fetchFn results succ).2.2 → is_blocked_domain u = false := by
  intro results
  induction results with
  | nil =>
    intro succ u h
    exact absurd h (List.not_mem_nil u)
  | cons r rest ih =>
    intro succ u h
    show _ = false
    by_cases h3 : 3 ≤ succ
    · rw [show gdiResultsLoop fetchFn (r :: rest) succ = ([], succ, []) from by
        show (if 3 ≤ succ then _ else _) = _
        rw [if_pos h3]] at h
      exact absurd h (List.not_mem_nil u)
    · by_cases hb : is_blocked_domain r.href = true
      · rw [show gdiResultsLoop fetchFn (r :: rest) succ
            = gdiResultsLoop fetchFn rest succ from by
          show (if 3 ≤ succ then _ else _) = _
          rw [if_neg h3, if_pos hb]] at h
        exact ih succ u h
      · have hbf : is_blocked_domain r.href = false := by
          simpa using hb
        by_cases hc : fetchFn r.href = []
        · rw [show gdiResultsLoop fetchFn (r :: rest) succ
              = ((gdiResultsLoop fetchFn rest succ).1,
                  (gdiResultsLoop fetchFn rest succ).2.1,
                  r.href :: (gdiResultsLoop fetchFn rest succ).2.2) from by
            show (if 3 ≤ succ then _ else _) = _
            rw [if_neg h3, if_neg (by simp [hbf]), if_pos hc]] at h
          rcases List.mem_cons.mp h with h | h
          · subst h
            exact hbf
          · exact ih succ u h
        · rw [show gdiResultsLoop fetchFn (r :: rest) succ
              = (("--- Source: " ++ r.title ++ " ---\n").data ++ fetchFn r.href
                  ++ '\n' :: '\n' :: (gdiResultsLoop fetchFn rest (succ + 1)).1,
                  (gdiResultsLoop fetchFn rest (succ + 1)).2.1,
                  r.href :: (gdiResultsLoop fetchFn rest (succ + 1)).2.2) from by
            show (if 3 ≤ succ then _ else _) = _
            rw [if_neg h3, if_neg (by simp [hbf]), if_neg hc]] at h
          rcases List.mem_cons.mp h with h | h
          · subst h
            exact hbf
          · exact ih (succ + 1) u h

/-- C9 (amended): in `WebSearch.get_destination_info` (and its per-query
result loop), a URL matching a blocked anti-scraping domain is skipped
BEFORE any page request: the fetch trace never contains a blocked URL,
for every sequence of search results the provider returns.
`rag.gather_corpus`, by contrast, applies no blocklist at all and may
fetch blocked URLs (see the counterexample). -/
theorem blocklist_before_fetch (fetchFn : String → List Char)
    (queryResults : List (List GDIResult)) :
    ∀ u ∈ (get_destination_info_run fetchFn queryResults).2.2,
      is_blocked_domain u = false := by
  show ∀ u ∈ (gdiQueriesLoop fetchFn queryResults 0).2.2, _
  generalize 0 = succ0
  induction queryResults generalizing succ0 with
  | nil =>
    intro u h
    exact absurd h (List.not_mem_nil u)
  | cons results qrest ih =>
    intro u h
    by_cases h3 : 3 ≤ succ0
    · rw [show gdiQueriesLoop fetchFn (results :: qrest) succ0 = ([], succ0, []) from by
        show (if 3 ≤ succ0 then _ else _) = _
        rw [if_pos h3]] at h
      exact absurd h (List.not_mem_nil u)
    · rw [show gdiQueriesLoop fetchFn (results :: qrest) succ0
          = ((gdiResultsLoop fetchFn results succ0).1
              ++ (gdiQueriesLoop fetchFn qrest (gdiResultsLoop fetchFn results succ0).2.1).1,
              (gdiQueriesLoop fetchFn qrest (gdiResultsLoop fetchFn results succ0).2.1).2.1,
              (gdiResultsLoop fetchFn results succ0).2.2
              ++ (gdiQueriesLoop fetchFn qrest (gdiResultsLoop fetchFn results succ0).2.1).2.2)
          from by
        show (if 3 ≤ succ0 then _ else _) = _
        rw [if_neg h3]] at h
      rcases List.mem_append.mp h with h | h
      · exact gdiResultsLoop_trace_ok fetchFn results succ0 u h
      · exact ih _ u h

/-- Witness for C9 (amended): a single unblocked URL is fetched and is
indeed not on the blocklist. -/
theorem blocklist_before_fetch_witness :
    "https://example.com/a" ∈ (get_destination_info_run (fun _ => ['h', 'i'])
      [[{ href := "https://example.com/a", title := "T" }]]).2.2 ∧
    is_blocked_domain "https://example.com/a" = false :=
  ⟨by decide, blocklist_before_fetch (fun _ => ['h', 'i'])
    [[{ href := "https://example.com/a", title := "T" }]]
    "https://example.com/a" (by decide)⟩
